import Mathlib

/-!
Verification of the NFSKit repository: a single C header,
`src/Sources/nfs/include/nfs_shim.h`, that aggregates ten libnfs headers
behind an include guard.  We embed the C preprocessor fragment the file
uses (object-like `#define`, `#ifndef`/`#endif` conditionals with
skipping, `#include` directives) and transcribe the header line by line.
-/

namespace NFSKit

/-- One line of a C header, as seen by the preprocessor.  `ifndef n` is
`#ifndef n`, `defineM n` is `#define n` (object-like, empty body),
`inc p` is `#include <p>`, `endif` is `#endif`; `blank` is a blank or
comment-only line, and `text s` is any other content (a declaration,
definition or statement handed to the compiler proper). -/
inductive Line where
  | ifndef (n : String)
  | defineM (n : String)
  | inc (p : String)
  | endif
  | blank
  | text (s : String)
deriving DecidableEq, Repr

/-- What the preprocessor emits to the compiler proper: either the request
to pull in an external header, or a line of translation-unit text. -/
inductive Emit where
  | header (p : String)
  | decl (s : String)
deriving DecidableEq, Repr

/-- Run the preprocessor over a list of lines.  `env` is the set (list) of
object-like macros currently defined; `skip` is the nesting depth of
failed conditionals (0 = active region).  Returns the macro environment
after the file and the list of emissions, in order.  `#include` of an
external-library header is emitted as an event rather than expanded,
since the wrapped libnfs headers are not part of this repository. -/
def ppLines : List Line → List String → Nat → List String × List Emit
  | [], env, _ => (env, [])
  | Line.ifndef n :: ls, env, 0 => ppLines ls env (if n ∈ env then 1 else 0)
  | Line.ifndef _ :: ls, env, s+1 => ppLines ls env (s+2)
  | Line.endif :: ls, env, 0 => ppLines ls env 0
  | Line.endif :: ls, env, s+1 => ppLines ls env s
  | Line.defineM n :: ls, env, 0 => ppLines ls (env ++ [n]) 0
  | Line.defineM _ :: ls, env, s+1 => ppLines ls env (s+1)
  | Line.inc p :: ls, env, 0 =>
      let r := ppLines ls env 0
      (r.1, Emit.header p :: r.2)
  | Line.inc _ :: ls, env, s+1 => ppLines ls env (s+1)
  | Line.text t :: ls, env, 0 =>
      let r := ppLines ls env 0
      (r.1, Emit.decl t :: r.2)
  | Line.text _ :: ls, env, s+1 => ppLines ls env (s+1)
  | Line.blank :: ls, env, s => ppLines ls env s

/-- The content of `src/Sources/nfs/include/nfs_shim.h`, transcribed
line by line from the source. -/
def nfs_shim_h : List Line :=
  [ Line.ifndef "NFS_SHIM_H",
    Line.defineM "NFS_SHIM_H",
    Line.blank,
    Line.inc "nfsc/libnfs-raw-mount.h",
    Line.inc "nfsc/libnfs-raw-nfs.h",
    Line.inc "nfsc/libnfs-raw-nfs4.h",
    Line.inc "nfsc/libnfs-raw-nlm.h",
    Line.inc "nfsc/libnfs-raw-nsm.h",
    Line.inc "nfsc/libnfs-raw-portmap.h",
    Line.inc "nfsc/libnfs-raw-rquota.h",
    Line.inc "nfsc/libnfs-raw.h",
    Line.inc "nfsc/libnfs-zdr.h",
    Line.inc "nfsc/libnfs.h",
    Line.blank,
    Line.endif ]

/-- The repository's source tree: exactly one file. -/
def repository : List (String × List Line) :=
  [("Sources/nfs/include/nfs_shim.h", nfs_shim_h)]

/-- Include `nfs_shim.h` into a translation unit whose macro environment
at the point of inclusion is `env`. -/
def includeShim (env : List String) : List String × List Emit :=
  ppLines nfs_shim_h env 0

/-- Include `nfs_shim.h` `n` times in a row, threading the macro
environment and concatenating the emissions. -/
def includeShimN : Nat → List String → List String × List Emit
  | 0, env => (env, [])
  | n+1, env =>
      let r := includeShim env
      let r2 := includeShimN n r.1
      (r2.1, r.2 ++ r2.2)

/-- The ten libnfs headers the shim wraps, in the order the shim includes
them: mount, NFS v3, NFS v4, NLM, NSM, portmap, remote quota, raw RPC,
ZDR/XDR primitives, and the general client-facing API. -/
def wrappedHeaders : List String :=
  [ "nfsc/libnfs-raw-mount.h",
    "nfsc/libnfs-raw-nfs.h",
    "nfsc/libnfs-raw-nfs4.h",
    "nfsc/libnfs-raw-nlm.h",
    "nfsc/libnfs-raw-nsm.h",
    "nfsc/libnfs-raw-portmap.h",
    "nfsc/libnfs-raw-rquota.h",
    "nfsc/libnfs-raw.h",
    "nfsc/libnfs-zdr.h",
    "nfsc/libnfs.h" ]

/-- The header paths among a list of emissions, in order. -/
def emittedHeaders (out : List Emit) : List String :=
  out.filterMap fun e =>
    match e with
    | Emit.header p => some p
    | Emit.decl _ => none

/-- `true` iff the emission is an `#include` of an external header. -/
def isHeaderEmit : Emit → Bool
  | Emit.header _ => true
  | Emit.decl _ => false

/-- The names defined by `#define` directives appearing in a file's text
(whether or not they are reached during a given run). -/
def definesOf (ls : List Line) : List String :=
  ls.filterMap fun l =>
    match l with
    | Line.defineM n => some n
    | _ => none

/-- `true` iff the line is a preprocessor directive or blank, i.e. the
line contributes no declaration, definition or statement of its own. -/
def isDirectiveOrBlank : Line → Bool
  | Line.text _ => false
  | _ => true

/-- The translation-unit declarations made visible by a list of
emissions, given an assignment `declsOf` of declaration lists to external
headers: each included header contributes its declarations, each emitted
text line contributes itself. -/
def visibleDecls (declsOf : String → List String) : List Emit → List String
  | [] => []
  | Emit.header p :: out => declsOf p ++ visibleDecls declsOf out
  | Emit.decl s :: out => s :: visibleDecls declsOf out

/-- The union, in order, of the declarations of a list of headers. -/
def unionDecls (declsOf : String → List String) : List String → List String
  | [] => []
  | p :: ps => declsOf p ++ unionDecls declsOf ps

end NFSKit

namespace NFSKit

/-- If the guard macro `NFS_SHIM_H` is already defined at the point of
inclusion, processing the shim leaves the environment unchanged and
emits nothing. -/
theorem includeShim_of_guard_defined (env : List String)
    (h : "NFS_SHIM_H" ∈ env) : includeShim env = (env, []) := by
  simp [includeShim, nfs_shim_h, ppLines, h]

/-- If the guard macro `NFS_SHIM_H` is not yet defined, processing the
shim adds exactly the guard to the environment and emits exactly the
ten wrapped headers. -/
theorem includeShim_of_guard_undefined (env : List String)
    (h : "NFS_SHIM_H" ∉ env) :
    includeShim env = (env ++ ["NFS_SHIM_H"], wrappedHeaders.map Emit.header) := by
  simp [includeShim, nfs_shim_h, ppLines, h, wrappedHeaders]

/-- Repeating the inclusion any number of times from an environment that
already holds the guard macro has no effect at all. -/
theorem includeShimN_of_guard_defined (m : Nat) (env : List String)
    (h : "NFS_SHIM_H" ∈ env) : includeShimN m env = (env, []) := by
  induction m with
  | zero => rfl
  | succ k ih => simp [includeShimN, includeShim_of_guard_defined env h, ih]

/-- Claim C1: including `nfs_shim.h` (into a translation unit that does
not already define its guard) emits exactly the ten wrapped libnfs
headers — mount, NFS v3, NFS v4, NLM, NSM, portmap, remote quota, raw
RPC, ZDR/XDR, and the general client-facing API — and nothing else: no
other header and no translation-unit text of its own. -/
theorem shim_reexports_exactly_ten_wrapped_headers :
    (includeShim []).2 = wrappedHeaders.map Emit.header ∧
    wrappedHeaders.length = 10 ∧ wrappedHeaders.Nodup := by
  decide

/-- Claim C5: the wrapped headers are included in exactly the listed
order — mount first, then NFS v3, NFS v4, NLM, NSM, portmap, remote
quota, then the low-level raw RPC and ZDR/XDR primitive headers, with
the general client-facing `libnfs.h` last. -/
theorem shim_include_order :
    emittedHeaders (includeShim []).2 =
      [ "nfsc/libnfs-raw-mount.h",
        "nfsc/libnfs-raw-nfs.h",
        "nfsc/libnfs-raw-nfs4.h",
        "nfsc/libnfs-raw-nlm.h",
        "nfsc/libnfs-raw-nsm.h",
        "nfsc/libnfs-raw-portmap.h",
        "nfsc/libnfs-raw-rquota.h",
        "nfsc/libnfs-raw.h",
        "nfsc/libnfs-zdr.h",
        "nfsc/libnfs.h" ] := by
  decide

/-- Claim C6: the repository contains exactly one source artifact, the
header `nfs_shim.h`, and that file consists only of preprocessor
directives and blank lines — no declaration, data flow, or control flow
of its own beyond textual inclusion. -/
theorem repository_single_directive_only_artifact :
    repository = [("Sources/nfs/include/nfs_shim.h", nfs_shim_h)] ∧
    repository.length = 1 ∧
    nfs_shim_h.all isDirectiveOrBlank = true := by
  decide

/-- Claim C2: for a translation unit whose macro environment does not
already reserve the guard, including `nfs_shim.h` makes all ten wrapped
headers' declarations visible, and the shim itself is free of
redefinition conflicts: its only `#define` is the guard `NFS_SHIM_H`,
defined exactly once; the guard name collides with no wrapped header,
and the shim hands the compiler no text of its own. -/
theorem shim_visible_without_redefinition (env : List String)
    (h : "NFS_SHIM_H" ∉ env) :
    emittedHeaders (includeShim env).2 = wrappedHeaders ∧
    definesOf nfs_shim_h = ["NFS_SHIM_H"] ∧
    (definesOf nfs_shim_h).Nodup ∧
    "NFS_SHIM_H" ∉ wrappedHeaders ∧
    (includeShim env).2.all isHeaderEmit = true := by
  rw [includeShim_of_guard_undefined env h]
  refine ⟨?_, by decide, by decide, by decide, ?_⟩
  · show emittedHeaders (wrappedHeaders.map Emit.header) = wrappedHeaders
    decide
  · show (wrappedHeaders.map Emit.header).all isHeaderEmit = true
    decide

/-- Witness for C2: the theorem instantiated at the empty macro
environment, the hypothesis discharged by evaluation. -/
theorem shim_visible_without_redefinition_witness :
    emittedHeaders (includeShim []).2 = wrappedHeaders ∧
    definesOf nfs_shim_h = ["NFS_SHIM_H"] ∧
    (definesOf nfs_shim_h).Nodup ∧
    "NFS_SHIM_H" ∉ wrappedHeaders ∧
    (includeShim []).2.all isHeaderEmit = true :=
  shim_visible_without_redefinition [] (by decide)

/-- Claim C3: the shim contributes nothing of its own beyond the guard
macro.  For any assignment of declaration sets to external headers and
any translation unit not predefining the reserved guard, the
declarations visible after including `nfs_shim.h` are exactly the union,
in order, of the declarations of the ten wrapped headers, and the macro
environment grows by exactly the guard `NFS_SHIM_H`. -/
theorem shim_frame_union_of_wrapped (declsOf : String → List String)
    (env : List String) (h : "NFS_SHIM_H" ∉ env) :
    visibleDecls declsOf (includeShim env).2 = unionDecls declsOf wrappedHeaders ∧
    (includeShim env).1 = env ++ ["NFS_SHIM_H"] := by
  rw [includeShim_of_guard_undefined env h]
  exact ⟨rfl, rfl⟩

/-- Witness for C3: the theorem instantiated at a concrete declaration
assignment and the empty macro environment. -/
theorem shim_frame_union_of_wrapped_witness :
    visibleDecls (fun p => [p]) (includeShim []).2 =
      unionDecls (fun p => [p]) wrappedHeaders ∧
    (includeShim []).1 = [] ++ ["NFS_SHIM_H"] :=
  shim_frame_union_of_wrapped (fun p => [p]) [] (by decide)

/-- Claim C4: inclusion of `nfs_shim.h` is idempotent: for every
translation unit — every macro environment at the point of inclusion —
and every `n ≥ 1`, including the header `n` times yields the same macro
environment and the same emissions as including it once, because the
first inclusion defines `NFS_SHIM_H` (if it was not already defined) and
every later inclusion expands to nothing. -/
theorem shim_inclusion_idempotent (env : List String) (n : Nat) (h : 1 ≤ n) :
    includeShimN n env = includeShimN 1 env := by
  obtain ⟨m, rfl⟩ : ∃ m, n = m + 1 := ⟨n - 1, (Nat.succ_pred_eq_of_pos h).symm⟩
  by_cases hg : "NFS_SHIM_H" ∈ env
  · rw [includeShimN_of_guard_defined (m + 1) env hg,
      includeShimN_of_guard_defined 1 env hg]
  · have h1 := includeShim_of_guard_undefined env hg
    have hmem : "NFS_SHIM_H" ∈ env ++ ["NFS_SHIM_H"] := by simp
    have h2 := includeShimN_of_guard_defined m (env ++ ["NFS_SHIM_H"]) hmem
    simp [includeShimN, h1, h2]

/-- Witness for C4: in a translation unit that already defines an
unrelated macro, three inclusions equal one. -/
theorem shim_inclusion_idempotent_witness :
    includeShimN 3 ["FOO"] = includeShimN 1 ["FOO"] :=
  shim_inclusion_idempotent ["FOO"] 3 (by decide)

/-- Claim C7: the guard gates everything.  Including `nfs_shim.h` when
`NFS_SHIM_H` is already defined has no effect at all — environment
unchanged, nothing emitted — and including it when the guard is
undefined emits exactly the ten wrapped headers and defines the guard. -/
theorem shim_guard_gates_all_effect (env : List String) :
    ("NFS_SHIM_H" ∈ env → includeShim env = (env, [])) ∧
    ("NFS_SHIM_H" ∉ env →
      includeShim env = (env ++ ["NFS_SHIM_H"], wrappedHeaders.map Emit.header)) :=
  ⟨includeShim_of_guard_defined env, includeShim_of_guard_undefined env⟩

/-- Witness for C7: both branches of the theorem at concrete
environments, the hypotheses discharged by evaluation. -/
theorem shim_guard_gates_all_effect_witness :
    includeShim ["NFS_SHIM_H"] = (["NFS_SHIM_H"], []) ∧
    includeShim [] = ([] ++ ["NFS_SHIM_H"], wrappedHeaders.map Emit.header) :=
  ⟨(shim_guard_gates_all_effect ["NFS_SHIM_H"]).1 (by decide),
   (shim_guard_gates_all_effect []).2 (by decide)⟩

/-- Claim C8: no error taxonomy, error type, error code or
failure-handling declaration originates in the shim: under every macro
environment, everything it emits is an `#include` of one of the ten
wrapped libnfs headers, so every error-related declaration visible
through it comes from the wrapped library. -/
theorem shim_originates_no_error_decls (env : List String) (e : Emit)
    (he : e ∈ (includeShim env).2) :
    ∃ p, p ∈ wrappedHeaders ∧ e = Emit.header p := by
  by_cases h : "NFS_SHIM_H" ∈ env
  · rw [includeShim_of_guard_defined env h] at he
    exact absurd he (List.not_mem_nil e)
  · rw [includeShim_of_guard_undefined env h] at he
    obtain ⟨p, hp, rfl⟩ := List.mem_map.mp he
    exact ⟨p, hp, rfl⟩

/-- Witness for C8: the emission of `libnfs.h` under the empty
environment is an include of a wrapped header. -/
theorem shim_originates_no_error_decls_witness :
    ∃ p, p ∈ wrappedHeaders ∧ Emit.header "nfsc/libnfs.h" = Emit.header p :=
  shim_originates_no_error_decls [] (Emit.header "nfsc/libnfs.h") (by decide)

/-- Claim C9: the shim introduces no construct of its own — in
particular no lock, atomic, scheduling or shared-state construct: under
every macro environment its emissions are header includes only (no
translation-unit text), and its only possible effect on the macro
environment is defining the guard `NFS_SHIM_H`. -/
theorem shim_introduces_no_own_constructs (env : List String) :
    (includeShim env).2.all isHeaderEmit = true ∧
    ((includeShim env).1 = env ∨ (includeShim env).1 = env ++ ["NFS_SHIM_H"]) := by
  by_cases h : "NFS_SHIM_H" ∈ env
  · rw [includeShim_of_guard_defined env h]
    exact ⟨rfl, Or.inl rfl⟩
  · rw [includeShim_of_guard_undefined env h]
    refine ⟨?_, Or.inr rfl⟩
    show (wrappedHeaders.map Emit.header).all isHeaderEmit = true
    decide

end NFSKit
